import Mathlib

/-!
Shallow embedding of the Github-Warning-System frontend core
(src/frontend/app/page.tsx, src/frontend/components/Card.tsx,
src/frontend/app/details/page.tsx): the stream ingestor's feed and its
validity filter, the incident aggregator (hour histogram and daily series),
the card-click navigation query and the details page's parameter reading,
the detail-bundle assembler, and the rendered-key fallback.
-/

/-! ## JSON values and a model of JSON.parse

`JSON.parse` as invoked by the source on summary strings.  The model
parses the JSON subset the system exchanges: null, true, false, integer
numbers, escape-free strings, arrays and objects, with whitespace; any
other input is a parse failure (`none`), the model of a thrown
SyntaxError. -/

inductive Json where
  | null
  | jbool (b : Bool)
  | jnum (n : Int)
  | jstr (s : String)
  | jarr (xs : List Json)
  | jobj (kvs : List (String × Json))

def isWsChar (c : Char) : Bool :=
  c = ' ' || c = '\n' || c = '\t' || c = '\r'

def skipWs : List Char → List Char
  | [] => []
  | c :: cs => if isWsChar c then skipWs cs else c :: cs

/-- Consume the body of a double-quoted string up to the closing quote.
Escape sequences are outside the modelled subset and fail the parse. -/
def takeStringChars (acc : List Char) : List Char → Option (String × List Char)
  | [] => none
  | c :: cs =>
    if c = '"' then some (String.mk acc.reverse, cs)
    else if c = '\\' then none
    else takeStringChars (c :: acc) cs

def takeDigits (acc : Nat) : List Char → Nat × List Char
  | [] => (acc, [])
  | c :: cs => if c.isDigit then takeDigits (acc * 10 + (c.toNat - 48)) cs else (acc, c :: cs)

mutual

def parseVal (fuel : Nat) (cs : List Char) : Option (Json × List Char) :=
  match fuel with
  | 0 => none
  | f + 1 =>
    match skipWs cs with
    | 'n' :: 'u' :: 'l' :: 'l' :: rest => some (.null, rest)
    | 't' :: 'r' :: 'u' :: 'e' :: rest => some (.jbool true, rest)
    | 'f' :: 'a' :: 'l' :: 's' :: 'e' :: rest => some (.jbool false, rest)
    | '"' :: rest => (takeStringChars [] rest).map fun p => (.jstr p.1, p.2)
    | '[' :: rest =>
      match skipWs rest with
      | ']' :: r2 => some (.jarr [], r2)
      | r1 => (parseArrItems f r1).map fun p => (.jarr p.1, p.2)
    | '{' :: rest =>
      match skipWs rest with
      | '}' :: r2 => some (.jobj [], r2)
      | r1 => (parseObjItems f r1).map fun p => (.jobj p.1, p.2)
    | '-' :: c :: rest =>
      if c.isDigit then
        let p := takeDigits (c.toNat - 48) rest
        some (.jnum (-(p.1 : Int)), p.2)
      else none
    | c :: rest =>
      if c.isDigit then
        let p := takeDigits (c.toNat - 48) rest
        some (.jnum (p.1 : Int), p.2)
      else none
    | [] => none

def parseArrItems (fuel : Nat) (cs : List Char) : Option (List Json × List Char) :=
  match fuel with
  | 0 => none
  | f + 1 =>
    match parseVal f cs with
    | none => none
    | some (j, rest) =>
      match skipWs rest with
      | ',' :: r2 => (parseArrItems f r2).map fun p => (j :: p.1, p.2)
      | ']' :: r2 => some ([j], r2)
      | _ => none

def parseObjItems (fuel : Nat) (cs : List Char) : Option (List (String × Json) × List Char) :=
  match fuel with
  | 0 => none
  | f + 1 =>
    match skipWs cs with
    | '"' :: rest =>
      match takeStringChars [] rest with
      | none => none
      | some (k, r1) =>
        match skipWs r1 with
        | ':' :: r2 =>
          match parseVal f r2 with
          | none => none
          | some (v, r3) =>
            match skipWs r3 with
            | ',' :: r4 => (parseObjItems f r4).map fun p => ((k, v) :: p.1, p.2)
            | '}' :: r4 => some ([(k, v)], r4)
            | _ => none
        | _ => none
    | _ => none

end

/-- JSON.parse on a whole string: one value, nothing but whitespace after. -/
def parseJson (s : String) : Option Json :=
  match parseVal (2 * s.length + 2) s.toList with
  | some (j, rest) => if skipWs rest = [] then some j else none
  | none => none

/-! ## EventRecord model and the Stream Ingestor (page.tsx Home) -/

/-- An id value as JavaScript sees it: a number or a string. -/
inductive JsId where
  | num (n : Int)
  | str (s : String)
deriving DecidableEq

structure Payload where
  repoName : Option String
  type : Option String
deriving DecidableEq

/-- One inbound activity record, after the per-message JSON.parse of the
stream handler: the fields the page reads, each possibly absent. -/
structure Activity where
  id : Option JsId
  payload : Option Payload
  summary : Option String
  created_at : Option String
deriving DecidableEq

/-- The filter of Home (page.tsx lines 42-54): an activity is kept iff its
summary field is truthy (present and non-empty) and JSON.parse succeeds on
it; the parse failure is caught and turned into false.  The payload fields
are not examined by this filter. -/
def isVisible (a : Activity) : Bool :=
  match a.summary with
  | some s => if s = "" then false else (parseJson s).isSome
  | none => false

/-- The onmessage handler folds each parsed message onto the head of the
activities list (page.tsx line 14): newest first. -/
def onMessage (feed : List Activity) (a : Activity) : List Activity :=
  a :: feed

/-- The activities state after an arrival-ordered message sequence,
starting from the empty feed of a fresh connection. -/
def feedOf (msgs : List Activity) : List Activity :=
  msgs.foldl onMessage []

/-- The rendered projection: the feed filtered by `isVisible`. -/
def visibleFeed (feed : List Activity) : List Activity :=
  feed.filter isVisible

def hasPayloadFields (a : Activity) : Bool :=
  match a.payload with
  | some p => p.repoName.isSome && p.type.isSome
  | none => false

/-- Modelled from the spec: the feed-eligibility condition of spec section
4.1 — summary present and parsing as valid JSON, and payload carrying both
repo.name and type.  Stated from the spec words, to be compared with the
source filter `isVisible`. -/
def specEligible (a : Activity) : Bool :=
  (match a.summary with
   | some s => if s = "" then false else (parseJson s).isSome
   | none => false) && hasPayloadFields a

/-- JavaScript truthiness of an id value: the number 0 and the empty
string are falsy. -/
def JsId.truthy : JsId → Bool
  | .num n => n != 0
  | .str s => s != ""

/-- The rendered key of one card (page.tsx line 57): activity.id when
truthy, else the positional index in the filtered list. -/
def keyOf (id : Option JsId) (index : Nat) : JsId :=
  match id with
  | some v => if v.truthy then v else .num index
  | none => .num index

/-- The keys of the rendered cards, in order: `keyOf` at each position of
the visible feed. -/
def renderKeys (feed : List Activity) : List JsId :=
  (visibleFeed feed).mapIdx fun i a => keyOf a.id i

/-! ## AccidentRecord and the Incident Aggregator (Card.tsx DetailsPage) -/

structure Accident where
  id : Int
  accident_type : String
  timestamp : String
  repo_name : String
deriving DecidableEq

def digitVal (c : Char) : Nat := c.toNat - 48

/-- Models JavaScript Date parsing for the UTC ISO-8601 timestamps this
system exchanges: a string of the exact shape YYYY-MM-DDThh:mm:ssZ with
in-range fields parses, anything else is an Invalid Date (`none`).  The
first component is the UTC calendar date string, i.e. what
toISOString produces before the T separator, and the second is the hour of
day, i.e. getHours for a client whose local zone is UTC. -/
def parseTimestamp (s : String) : Option (String × Nat) :=
  match s.toList with
  | [y1, y2, y3, y4, '-', m1, m2, '-', d1, d2, 'T',
     h1, h2, ':', n1, n2, ':', p1, p2, 'Z'] =>
    if ([y1, y2, y3, y4, m1, m2, d1, d2, h1, h2, n1, n2, p1, p2].all Char.isDigit) then
      let mo := digitVal m1 * 10 + digitVal m2
      let dy := digitVal d1 * 10 + digitVal d2
      let hr := digitVal h1 * 10 + digitVal h2
      let mi := digitVal n1 * 10 + digitVal n2
      let sc := digitVal p1 * 10 + digitVal p2
      if 1 ≤ mo && mo ≤ 12 && 1 ≤ dy && dy ≤ 31 && hr ≤ 23 && mi ≤ 59 && sc ≤ 59 then
        some (String.mk [y1, y2, y3, y4, '-', m1, m2, '-', d1, d2], hr)
      else none
    else none
  | _ => none

structure HourBucket where
  hour : Nat
  hourLabel : String
  count : Nat
  name : String
deriving DecidableEq

/-- Zero-padded two digits: toString padStart 2 with a zero, for 0..99. -/
def pad2 (n : Nat) : String :=
  if n < 10 then "0" ++ toString n else toString n

/-- allHours of DetailsPage (Card.tsx lines 101-106): 24 zero-count
buckets, hours 0..23 in order, labelled hh:00. -/
def allHours : List HourBucket :=
  (List.range 24).map fun h => ⟨h, pad2 h ++ ":00", 0, pad2 h ++ ":00"⟩

/-- allHours with the bucket at the given position incremented; positions
past the end are untouched (the loop below only ever increments in
bounds). -/
def bumpHour : List HourBucket → Nat → List HourBucket
  | [], _ => []
  | b :: bs, 0 => { b with count := b.count + 1 } :: bs
  | b :: bs, n + 1 => b :: bumpHour bs n

/-- The forEach of Card.tsx lines 110-114 over the accident list.  An
unparseable timestamp makes getHours return NaN, indexing allHours at NaN
yields undefined and the increment throws, aborting the whole loop: that
throw is the `Except.error` case, as is an out-of-bounds hour. -/
def histLoop : List Accident → List HourBucket → Except Unit (List HourBucket)
  | [], bs => .ok bs
  | a :: rest, bs =>
    match parseTimestamp a.timestamp with
    | none => .error ()
    | some (_, h) =>
      if h < bs.length then histLoop rest (bumpHour bs h) else .error ()

/-- The hour histogram of DetailsPage: the 24 initial buckets threaded
through the accident loop. -/
def hourHistogram (accs : List Accident) : Except Unit (List HourBucket) :=
  histLoop accs allHours

structure DayBucket where
  date : String
  count : Nat
deriving DecidableEq

/-- Increment the count of the first bucket carrying the date (the
`existing.count += 1` branch of the reduce). -/
def incFirst : List DayBucket → String → List DayBucket
  | [], _ => []
  | b :: bs, d =>
    if b.date = d then { b with count := b.count + 1 } :: bs else b :: incFirst bs d

/-- One step of the reduce of Card.tsx lines 120-131: find a bucket with
this date; increment it when found, else push a fresh bucket of count 1. -/
def addDay (acc : List DayBucket) (d : String) : List DayBucket :=
  if acc.any fun b => b.date == d then incFirst acc d else acc ++ [⟨d, 1⟩]

/-- The reduce over the accident list.  An unparseable timestamp makes
toISOString throw a RangeError, aborting the reduce: the `Except.error`
case. -/
def dayLoop : List Accident → List DayBucket → Except Unit (List DayBucket)
  | [], acc => .ok acc
  | a :: rest, acc =>
    match parseTimestamp a.timestamp with
    | none => .error ()
    | some (d, _) => dayLoop rest (addDay acc d)

/-- The daily series of DetailsPage: the reduce from the empty
accumulator. -/
def dailySeries (accs : List Accident) : Except Unit (List DayBucket) :=
  dayLoop accs []

def sumCounts (bs : List HourBucket) : Nat := (bs.map (fun b => b.count)).sum

def sumDayCounts (ds : List DayBucket) : Nat := (ds.map (fun b => b.count)).sum

/-! ## Navigation: card click query and details page parameters -/

/-- The query string built by the card click handler (Card.tsx lines
20-22): the repoName and eventType parameters, in that order. -/
def cardQuery (repoName eventType : String) : List (String × String) :=
  [("repoName", repoName), ("eventType", eventType)]

/-- searchParams.get: the first value bound to the name, none when the
parameter is absent. -/
def getParam (q : List (String × String)) (key : String) : Option String :=
  (q.find? fun p => p.1 == key).map fun p => p.2

/-- The event-type to incident-type switch inside the DetailsPage fetch
URL (Card.tsx line 90). -/
def mapEventType (accidentType : Option String) : String :=
  if accidentType == some "PushEvent" then "force_push" else "issue_created"

/-- The accident_type value the DetailsPage fetch sends, reading the
accidentType query parameter of the current URL. -/
def requestedAccidentType (q : List (String × String)) : String :=
  mapEventType (getParam q "accidentType")

/-! ## Detail Assembler (Card.tsx DetailsPage effect) -/

structure SummaryRecord where
  id : Int
  payload : Option Payload
  summary : String
  created_at : String

structure DetailsData where
  summary : Option SummaryRecord
  accidents : List Accident

/-- A detail fetch response: ok status and the decoded JSON body. -/
structure Response where
  ok : Bool
  body : DetailsData

inductive AssembleError where
  | fetchFailed
  | summaryMissing
  | summaryParseFailed
  | aggregationFailed
deriving DecidableEq

/-- The component state the DetailsPage effect writes: data, summaries,
chartData and heatmapValue, each unset until its setter runs. -/
structure DetailState where
  data : Option DetailsData
  summaries : Option Json
  chartData : Option (List HourBucket)
  heatmapValue : List DayBucket

def DetailState.init : DetailState := ⟨none, none, none, []⟩

/-- One run of the DetailsPage effect on a response (Card.tsx lines
92-134), as the state it leaves and the error it raises, if any.  The
setters run in source order: a non-ok response throws before any setter; a
null bundle summary or a summary that fails JSON.parse throws after
setData has already run; an aggregation throw happens after setData and
setSummaries.  No catch handler exists, so the error propagates as an
unhandled rejection. -/
def processResponse (resp : Response) : DetailState × Option AssembleError :=
  if resp.ok then
    let s1 : DetailState := { DetailState.init with data := some resp.body }
    match resp.body.summary with
    | none => (s1, some .summaryMissing)
    | some sr =>
      match parseJson sr.summary with
      | none => (s1, some .summaryParseFailed)
      | some j =>
        let s2 := { s1 with summaries := some j }
        match hourHistogram resp.body.accidents with
        | .error _ => (s2, some .aggregationFailed)
        | .ok hist =>
          let s3 := { s2 with chartData := some hist }
          match dailySeries resp.body.accidents with
          | .error _ => (s3, some .aggregationFailed)
          | .ok ds => ({ s3 with heatmapValue := ds }, none)
  else (DetailState.init, some .fetchFailed)

/-! ## Feed lemmas -/

theorem foldl_onMessage (msgs acc : List Activity) :
    msgs.foldl onMessage acc = msgs.reverse ++ acc := by
  induction msgs generalizing acc with
  | nil => simp
  | cons m rest ih => simp [onMessage, ih]

theorem feedOf_eq_reverse (msgs : List Activity) : feedOf msgs = msgs.reverse := by
  simpa using foldl_onMessage msgs []

theorem visibleFeed_feedOf (msgs : List Activity) :
    visibleFeed (feedOf msgs) = (msgs.filter isVisible).reverse := by
  rw [visibleFeed, feedOf_eq_reverse, List.filter_reverse]

/-! ## C1 -/

/-- A record whose summary is present and valid JSON but whose payload
carries neither repo.name nor type. -/
def activityNoPayload : Activity :=
  { id := some (.num 1), payload := some { repoName := none, type := none },
    summary := some "[]", created_at := none }

/-- C1 fails on the code: the Home filter checks only the summary field,
so a record whose summary parses but whose payload lacks repo.name and
type still appears in visibleFeed, and visibleFeed's length differs from
the count of messages satisfying the claimed validity condition. -/
theorem C1_counterexample :
    visibleFeed (feedOf [activityNoPayload]) = [activityNoPayload] ∧
    specEligible activityNoPayload = false ∧
    (visibleFeed (feedOf [activityNoPayload])).length ≠
      (([activityNoPayload]).filter specEligible).length := by
  refine ⟨by decide, by decide, by decide⟩

/-- C1 (amended): a record appears in visibleFeed iff its summary field is
present, non-empty and parses as valid JSON — the payload fields are not
part of the filter; visibleFeed's length equals the count of messages
satisfying that summary condition and is at most the number of messages
received. -/
theorem C1_visibleFeed_membership (msgs : List Activity) :
    (∀ a, a ∈ visibleFeed (feedOf msgs) ↔ a ∈ msgs ∧ isVisible a = true) ∧
    (visibleFeed (feedOf msgs)).length = (msgs.filter isVisible).length ∧
    (visibleFeed (feedOf msgs)).length ≤ msgs.length := by
  refine ⟨fun a => ?_, ?_, ?_⟩ <;> rw [visibleFeed_feedOf]
  · simp [List.mem_filter]
  · simp
  · simpa using List.length_filter_le isVisible msgs

/-! ## C5 -/

/-- C5: the feed is exactly the arrival sequence reversed (each message is
prepended, so a message arriving after another is placed before it), and
the visible feed is the validity filter of that reversed sequence, which
preserves the relative order. -/
theorem C5_reverse_arrival (msgs : List Activity) :
    feedOf msgs = msgs.reverse ∧
    visibleFeed (feedOf msgs) = (msgs.filter isVisible).reverse :=
  ⟨feedOf_eq_reverse msgs, visibleFeed_feedOf msgs⟩

/-! ## C3 -/

/-- C3: the card click encodes the event type under the query parameter
eventType, while the details page reads the parameter accidentType, which
is therefore absent; the comparison with PushEvent fails and the fetch
requests accident_type issue_created for every event type. -/
theorem C3_fetch_always_issue_created (repo et : String) :
    requestedAccidentType (cardQuery repo et) = "issue_created" ∧
    getParam (cardQuery repo et) "accidentType" = none :=
  ⟨rfl, rfl⟩

/-! ## C8 -/

/-- C8: the event-type to incident-type switch maps PushEvent to
force_push and every other value (any other string, or an absent
parameter) to issue_created; its image has no third element. -/
theorem C8_event_type_mapping (et : Option String) :
    mapEventType (some "PushEvent") = "force_push" ∧
    (et ≠ some "PushEvent" → mapEventType et = "issue_created") ∧
    (mapEventType et = "force_push" ∨ mapEventType et = "issue_created") := by
  refine ⟨rfl, fun h => ?_, ?_⟩
  · simp [mapEventType, beq_iff_eq, h]
  · by_cases h : et = some "PushEvent" <;> simp [mapEventType, beq_iff_eq, h]

/-! ## C10 -/

/-- C10: a rendered item's key is the record's id exactly when that id is
truthy; an id that is the number 0 or the empty string falls back to the
positional index, the same key an absent id gets. -/
theorem C10_key_fallback (v : JsId) (i : Nat) :
    (v.truthy = true → keyOf (some v) i = v) ∧
    (v.truthy = false → keyOf (some v) i = JsId.num i) ∧
    keyOf (some (JsId.num 0)) i = JsId.num i ∧
    keyOf (some (JsId.str "")) i = JsId.num i ∧
    keyOf none i = JsId.num i := by
  refine ⟨fun h => ?_, fun h => ?_, rfl, rfl, rfl⟩ <;> simp [keyOf, h]

/-! ## C2 -/

def accidentBadTs : Accident :=
  { id := 1, accident_type := "force_push", timestamp := "not-a-date", repo_name := "o/r" }

/-- C2 fails on the code: an unparseable timestamp is not skipped — the
hour histogram indexes the bucket array at NaN and throws, and the daily
series calls toISOString on an Invalid Date and throws, so both
aggregations abort. -/
theorem C2_counterexample :
    hourHistogram [accidentBadTs] = .error () ∧ dailySeries [accidentBadTs] = .error () :=
  ⟨rfl, rfl⟩

theorem histLoop_error_of_bad (accs : List Accident) (a : Accident) :
    ∀ bs, a ∈ accs → parseTimestamp a.timestamp = none → histLoop accs bs = .error () := by
  induction accs with
  | nil => intro bs ha _; cases ha
  | cons x rest ih =>
    intro bs ha hbad
    rcases List.mem_cons.mp ha with h | h
    · subst h
      simp [histLoop, hbad]
    · cases hx : parseTimestamp x.timestamp with
      | none => simp [histLoop, hx]
      | some p =>
        obtain ⟨d, hh⟩ := p
        simp only [histLoop, hx]
        split
        · exact ih _ h hbad
        · rfl

theorem dayLoop_error_of_bad (accs : List Accident) (a : Accident) :
    ∀ acc, a ∈ accs → parseTimestamp a.timestamp = none → dayLoop accs acc = .error () := by
  induction accs with
  | nil => intro acc ha _; cases ha
  | cons x rest ih =>
    intro acc ha hbad
    rcases List.mem_cons.mp ha with h | h
    · subst h
      simp [dayLoop, hbad]
    · cases hx : parseTimestamp x.timestamp with
      | none => simp [dayLoop, hx]
      | some p =>
        obtain ⟨d, hh⟩ := p
        simp only [dayLoop, hx]
        exact ih _ h hbad

/-- C2 (amended): an accident record whose timestamp is not parseable as a
date is not skipped — its presence makes both the hour histogram and the
daily series computation abort with an error, so no aggregate is produced
for the list. -/
theorem C2_unparseable_aborts (accs : List Accident) (a : Accident)
    (ha : a ∈ accs) (hbad : parseTimestamp a.timestamp = none) :
    hourHistogram accs = .error () ∧ dailySeries accs = .error () :=
  ⟨histLoop_error_of_bad accs a allHours ha hbad, dayLoop_error_of_bad accs a [] ha hbad⟩

theorem C2_unparseable_aborts_witness :
    hourHistogram [accidentBadTs] = Except.error () ∧
    dailySeries [accidentBadTs] = Except.error () :=
  C2_unparseable_aborts [accidentBadTs] accidentBadTs (List.mem_singleton.mpr rfl) rfl

/-! ## C9 -/

def respBadSummary : Response :=
  { ok := true,
    body := { summary := some { id := 1, payload := none, summary := "not json",
                                created_at := "2024-01-01T00:00:00Z" },
              accidents := [] } }

/-- C9 fails on the code as stated: a summary whose summary field is not
valid JSON does surface an error, but setData has already run by then, so
the detail state is left partially populated — the bundle data is stored
while the summaries stay unset. -/
theorem C9_counterexample :
    (processResponse respBadSummary).2 = some AssembleError.summaryParseFailed ∧
    (processResponse respBadSummary).1.data = some respBadSummary.body ∧
    (processResponse respBadSummary).1.summaries = none :=
  ⟨rfl, rfl, rfl⟩

/-- C9 (amended): a non-success response and a summary parse failure are
each surfaced as an assembler-level error and never replaced by an empty
summary (whenever no error is raised the summaries are populated); a
non-success response leaves the state untouched, but a summary parse
failure is raised only after the bundle has been stored, leaving the
detail state partially populated: data set, summaries unset. -/
theorem C9_error_surfacing (resp : Response) :
    (resp.ok = false → processResponse resp = (DetailState.init, some AssembleError.fetchFailed)) ∧
    (∀ sr, resp.ok = true → resp.body.summary = some sr → parseJson sr.summary = none →
      (processResponse resp).2 = some AssembleError.summaryParseFailed ∧
      (processResponse resp).1.data = some resp.body ∧
      (processResponse resp).1.summaries = none) ∧
    ((processResponse resp).2 = none → (processResponse resp).1.summaries.isSome = true) := by
  refine ⟨fun hok => ?_, fun sr hok hsum hparse => ?_, fun hnone => ?_⟩
  · simp [processResponse, hok]
  · simp [processResponse, DetailState.init, hok, hsum, hparse]
  · by_cases hok : resp.ok
    · simp only [processResponse, hok, if_true] at hnone ⊢
      cases hsum : resp.body.summary with
      | none => simp [hsum] at hnone
      | some sr =>
        simp only [hsum] at hnone ⊢
        cases hp : parseJson sr.summary with
        | none => simp [hp] at hnone
        | some j =>
          simp only [hp] at hnone ⊢
          cases hh : hourHistogram resp.body.accidents with
          | error e => simp [hh] at hnone
          | ok hist =>
            simp only [hh] at hnone ⊢
            cases hd : dailySeries resp.body.accidents with
            | error e => simp [hd] at hnone
            | ok ds => simp [hd]
    · simp [processResponse, hok] at hnone

/-! ## Hour histogram lemmas (C4, C6) -/

/-- The shape of a bucket: every field but the count. -/
def bucketShape (b : HourBucket) : Nat × String × String := (b.hour, b.hourLabel, b.name)

theorem bumpHour_map_shape (bs : List HourBucket) :
    ∀ n, (bumpHour bs n).map bucketShape = bs.map bucketShape := by
  induction bs with
  | nil => intro n; rfl
  | cons b rest ih =>
    intro n
    cases n with
    | zero => simp [bumpHour, bucketShape]
    | succ m => simp [bumpHour, ih]

theorem histLoop_map_shape (accs : List Accident) :
    ∀ bs h, histLoop accs bs = .ok h → h.map bucketShape = bs.map bucketShape := by
  induction accs with
  | nil =>
    intro bs h hok
    injection hok with he
    subst he; rfl
  | cons a rest ih =>
    intro bs h hok
    cases hx : parseTimestamp a.timestamp with
    | none => simp [histLoop, hx] at hok
    | some p =>
      obtain ⟨d, hr⟩ := p
      simp only [histLoop, hx] at hok
      split at hok
      · exact (ih _ _ hok).trans (bumpHour_map_shape bs hr)
      · cases hok

theorem sumCounts_bumpHour (bs : List HourBucket) :
    ∀ n, n < bs.length → sumCounts (bumpHour bs n) = sumCounts bs + 1 := by
  induction bs with
  | nil => intro n hn; cases hn
  | cons b rest ih =>
    intro n hn
    cases n with
    | zero => simp [bumpHour, sumCounts]; omega
    | succ m =>
      have hm : m < rest.length := by simpa using hn
      simp [bumpHour, sumCounts] at ih ⊢
      rw [ih m hm]
      omega

theorem histLoop_ok_parseable (accs : List Accident) :
    ∀ bs h, histLoop accs bs = .ok h →
      ∀ a, a ∈ accs → (parseTimestamp a.timestamp).isSome = true := by
  induction accs with
  | nil => intro bs h _ a ha; cases ha
  | cons x rest ih =>
    intro bs h hok a ha
    cases hx : parseTimestamp x.timestamp with
    | none => simp [histLoop, hx] at hok
    | some p =>
      obtain ⟨d, hr⟩ := p
      simp only [histLoop, hx] at hok
      split at hok
      · rcases List.mem_cons.mp ha with he | he
        · subst he; simp [hx]
        · exact ih _ _ hok a he
      · cases hok

theorem histLoop_sum (accs : List Accident) :
    ∀ bs h, histLoop accs bs = .ok h → sumCounts h = sumCounts bs + accs.length := by
  induction accs with
  | nil =>
    intro bs h hok
    injection hok with he
    subst he; simp
  | cons x rest ih =>
    intro bs h hok
    cases hx : parseTimestamp x.timestamp with
    | none => simp [histLoop, hx] at hok
    | some p =>
      obtain ⟨d, hr⟩ := p
      simp only [histLoop, hx] at hok
      split at hok
      · rename_i hlt
        rw [ih _ _ hok, sumCounts_bumpHour bs hr hlt]
        simp; omega
      · cases hok

/-! ## C4 -/

/-- C4: every histogram the aggregator produces has exactly 24 entries
whose hours are 0..23 in ascending order, each labelled (hourLabel and
name) with the zero-padded hh:00 string; the empty accident list yields
the 24 initial buckets, every count 0 and none absent. -/
theorem C4_histogram_shape (accs : List Accident) (h : List HourBucket)
    (hok : hourHistogram accs = .ok h) :
    h.length = 24 ∧
    h.map (fun b => b.hour) = List.range 24 ∧
    h.map (fun b => b.hourLabel) = (List.range 24).map (fun i => pad2 i ++ ":00") ∧
    h.map (fun b => b.name) = (List.range 24).map (fun i => pad2 i ++ ":00") ∧
    hourHistogram [] = .ok allHours ∧ (∀ b, b ∈ allHours → b.count = 0) := by
  have hm := histLoop_map_shape accs allHours h hok
  have hlen : h.length = 24 := by
    have := congrArg List.length hm
    simpa [allHours] using this
  refine ⟨hlen, ?_, ?_, ?_, rfl, ?_⟩
  · have := congrArg (List.map (fun p : Nat × String × String => p.1)) hm
    simp only [List.map_map] at this
    calc h.map (fun b => b.hour) = allHours.map (fun b => b.hour) := this
    _ = List.range 24 := by simp [allHours, List.map_map, Function.comp_def]
  · have := congrArg (List.map (fun p : Nat × String × String => p.2.1)) hm
    simp only [List.map_map] at this
    calc h.map (fun b => b.hourLabel) = allHours.map (fun b => b.hourLabel) := this
    _ = (List.range 24).map (fun i => pad2 i ++ ":00") := by simp [allHours, List.map_map, Function.comp_def]
  · have := congrArg (List.map (fun p : Nat × String × String => p.2.2)) hm
    simp only [List.map_map] at this
    calc h.map (fun b => b.name) = allHours.map (fun b => b.name) := this
    _ = (List.range 24).map (fun i => pad2 i ++ ":00") := by simp [allHours, List.map_map, Function.comp_def]
  · intro b hb
    simp only [allHours, List.mem_map] at hb
    obtain ⟨i, -, rfl⟩ := hb
    rfl

theorem C4_histogram_shape_witness :
    allHours.length = 24 ∧
    allHours.map (fun b => b.hour) = List.range 24 ∧
    allHours.map (fun b => b.hourLabel) = (List.range 24).map (fun i => pad2 i ++ ":00") ∧
    allHours.map (fun b => b.name) = (List.range 24).map (fun i => pad2 i ++ ":00") ∧
    hourHistogram [] = .ok allHours ∧ (∀ b, b ∈ allHours → b.count = 0) :=
  C4_histogram_shape [] allHours rfl

/-! ## C6 -/

/-- C6: whenever the aggregator produces a histogram, the sum of the 24
bucket counts equals the number of accident records whose timestamp is
parseable as a date (which, since an unparseable one aborts the whole
computation, is every record of the list). -/
theorem C6_histogram_sum (accs : List Accident) (h : List HourBucket)
    (hok : hourHistogram accs = .ok h) :
    sumCounts h = (accs.filter fun a => (parseTimestamp a.timestamp).isSome).length := by
  have hall := histLoop_ok_parseable accs allHours h hok
  rw [List.filter_eq_self.mpr hall, histLoop_sum accs allHours h hok]
  have h0 : sumCounts allHours = 0 := by decide
  omega

def accidentGood : Accident :=
  { id := 2, accident_type := "force_push", timestamp := "2024-01-01T09:15:00Z",
    repo_name := "o/r" }

theorem C6_histogram_sum_witness :
    sumCounts (bumpHour allHours 9) =
      (([accidentGood]).filter fun a => (parseTimestamp a.timestamp).isSome).length :=
  C6_histogram_sum [accidentGood] (bumpHour allHours 9) rfl

/-! ## Daily series lemmas (C7) -/

theorem incFirst_map_date (acc : List DayBucket) (d : String) :
    (incFirst acc d).map (fun b => b.date) = acc.map (fun b => b.date) := by
  induction acc with
  | nil => rfl
  | cons b rest ih => by_cases hb : b.date = d <;> simp [incFirst, hb, ih]

theorem addDay_map_date (acc : List DayBucket) (d : String) :
    (addDay acc d).map (fun b => b.date) = acc.map (fun b => b.date) ∨
    (addDay acc d).map (fun b => b.date) = acc.map (fun b => b.date) ++ [d] := by
  unfold addDay
  split
  · exact Or.inl (incFirst_map_date acc d)
  · right; simp

theorem addDay_nodup (acc : List DayBucket) (d : String)
    (hnd : (acc.map (fun b => b.date)).Nodup) :
    ((addDay acc d).map (fun b => b.date)).Nodup := by
  unfold addDay
  split
  · rw [incFirst_map_date]; exact hnd
  · rename_i hany
    have hd : d ∉ acc.map (fun b => b.date) := by
      simp only [List.any_eq_true, beq_iff_eq] at hany
      simp only [List.mem_map]
      rintro ⟨b, hb, hbd⟩
      exact hany ⟨b, hb, hbd⟩
    simp [List.nodup_append, hnd, hd]

theorem sumDayCounts_incFirst (acc : List DayBucket) (d : String)
    (hany : acc.any (fun b => b.date == d) = true) :
    sumDayCounts (incFirst acc d) = sumDayCounts acc + 1 := by
  induction acc with
  | nil => cases hany
  | cons b rest ih =>
    by_cases hb : b.date = d
    · simp [incFirst, hb, sumDayCounts]; omega
    · have hrest : rest.any (fun b => b.date == d) = true := by
        rcases List.any_eq_true.mp hany with ⟨x, hx, hxd⟩
        rcases List.mem_cons.mp hx with he | he
        · subst he
          simp only [beq_iff_eq] at hxd
          exact absurd hxd hb
        · exact List.any_eq_true.mpr ⟨x, he, hxd⟩
      simp only [incFirst, hb, if_false, sumDayCounts, List.map_cons, List.sum_cons]
      have := ih hrest
      simp only [sumDayCounts] at this
      omega

theorem sumDayCounts_addDay (acc : List DayBucket) (d : String) :
    sumDayCounts (addDay acc d) = sumDayCounts acc + 1 := by
  unfold addDay
  split
  · rename_i hany
    exact sumDayCounts_incFirst acc d hany
  · simp [sumDayCounts]

theorem dayLoop_ok_parseable (accs : List Accident) :
    ∀ acc ds, dayLoop accs acc = .ok ds →
      ∀ a, a ∈ accs → (parseTimestamp a.timestamp).isSome = true := by
  induction accs with
  | nil => intro acc ds _ a ha; cases ha
  | cons x rest ih =>
    intro acc ds hok a ha
    cases hx : parseTimestamp x.timestamp with
    | none => simp [dayLoop, hx] at hok
    | some p =>
      obtain ⟨d, hr⟩ := p
      simp only [dayLoop, hx] at hok
      rcases List.mem_cons.mp ha with he | he
      · subst he; simp [hx]
      · exact ih _ _ hok a he

theorem dayLoop_sum (accs : List Accident) :
    ∀ acc ds, dayLoop accs acc = .ok ds →
      sumDayCounts ds = sumDayCounts acc + accs.length := by
  induction accs with
  | nil =>
    intro acc ds hok
    injection hok with he
    subst he; simp
  | cons x rest ih =>
    intro acc ds hok
    cases hx : parseTimestamp x.timestamp with
    | none => simp [dayLoop, hx] at hok
    | some p =>
      obtain ⟨d, hr⟩ := p
      simp only [dayLoop, hx] at hok
      rw [ih _ _ hok, sumDayCounts_addDay]
      simp; omega

theorem dayLoop_nodup (accs : List Accident) :
    ∀ acc ds, dayLoop accs acc = .ok ds → (acc.map (fun b => b.date)).Nodup →
      (ds.map (fun b => b.date)).Nodup := by
  induction accs with
  | nil =>
    intro acc ds hok hnd
    injection hok with he
    subst he; exact hnd
  | cons x rest ih =>
    intro acc ds hok hnd
    cases hx : parseTimestamp x.timestamp with
    | none => simp [dayLoop, hx] at hok
    | some p =>
      obtain ⟨d, hr⟩ := p
      simp only [dayLoop, hx] at hok
      exact ih _ _ hok (addDay_nodup acc d hnd)

theorem dayLoop_dates_from (accs : List Accident) :
    ∀ acc ds, dayLoop accs acc = .ok ds → ∀ dt, dt ∈ ds.map (fun b => b.date) →
      dt ∈ acc.map (fun b => b.date) ∨
      ∃ a, a ∈ accs ∧ ∃ hr, parseTimestamp a.timestamp = some (dt, hr) := by
  induction accs with
  | nil =>
    intro acc ds hok dt hdt
    injection hok with he
    subst he; exact Or.inl hdt
  | cons x rest ih =>
    intro acc ds hok dt hdt
    cases hx : parseTimestamp x.timestamp with
    | none => simp [dayLoop, hx] at hok
    | some p =>
      obtain ⟨d, hr⟩ := p
      simp only [dayLoop, hx] at hok
      rcases ih _ _ hok dt hdt with hin | ⟨a, ha, hr2, hp⟩
      · rcases addDay_map_date acc d with he | he
        · rw [he] at hin; exact Or.inl hin
        · rw [he] at hin
          rcases List.mem_append.mp hin with h1 | h1
          · exact Or.inl h1
          · have hdd : dt = d := by simpa using h1
            subst hdd
            exact Or.inr ⟨x, List.mem_cons_self x rest, hr, hx⟩
      · exact Or.inr ⟨a, List.mem_cons_of_mem x ha, hr2, hp⟩

/-! ## C7 -/

/-- C7: whenever the aggregator produces a daily series, its date keys are
pairwise distinct (at most one entry per distinct UTC date, the key being
the calendar-date truncation of the timestamp), every entry's date comes
from some record's parsed timestamp, and the sum of the counts equals the
number of accidents with a parseable timestamp (every record of the list,
since an unparseable one aborts the computation). -/
theorem C7_daily_series (accs : List Accident) (ds : List DayBucket)
    (hok : dailySeries accs = .ok ds) :
    (ds.map (fun b => b.date)).Nodup ∧
    sumDayCounts ds = (accs.filter fun a => (parseTimestamp a.timestamp).isSome).length ∧
    (∀ b, b ∈ ds → ∃ a, a ∈ accs ∧ ∃ hr, parseTimestamp a.timestamp = some (b.date, hr)) := by
  refine ⟨dayLoop_nodup accs [] ds hok (by simp), ?_, ?_⟩
  · have hall := dayLoop_ok_parseable accs [] ds hok
    rw [List.filter_eq_self.mpr hall]
    simpa [sumDayCounts] using dayLoop_sum accs [] ds hok
  · intro b hb
    have hmem : b.date ∈ ds.map (fun b => b.date) := List.mem_map_of_mem _ hb
    rcases dayLoop_dates_from accs [] ds hok b.date hmem with h | h
    · simp at h
    · exact h

theorem C7_daily_series_witness :
    (([(⟨"2024-01-01", 1⟩ : DayBucket)]).map (fun b => b.date)).Nodup ∧
    sumDayCounts [(⟨"2024-01-01", 1⟩ : DayBucket)] =
      (([accidentGood]).filter fun a => (parseTimestamp a.timestamp).isSome).length ∧
    (∀ b, b ∈ [(⟨"2024-01-01", 1⟩ : DayBucket)] →
      ∃ a, a ∈ [accidentGood] ∧ ∃ hr, parseTimestamp a.timestamp = some (b.date, hr)) :=
  C7_daily_series [accidentGood] [⟨"2024-01-01", 1⟩] rfl
